import Mathlib

/-!
Shallow embedding of `src/app.js` (a framework-free to-do list).

The mutable module state of the script (`tasks`, `sortMode`,
`activeTagFilter`, `activeTagLabel`) is modelled by explicit state passing;
DOM manipulation is modelled by the pure values the render pipeline computes
(the projected list, the empty-state message choice, the count text).
JavaScript strings are Lean `String`s; the JS string primitives used by the
code (`trim`, `split`, `toLowerCase`) are given executable definitions over
the character list.  JSON values produced by `JSON.parse` are modelled by the
inductive `Json`; `JSON.stringify` followed by `JSON.parse` is the identity
on such values, so the storage round trip is modelled at the `Json` level.
Numbers are modelled as integers: every numeric value the program stores is a
millisecond timestamp.
-/

namespace Todo

/-- JS `String.prototype.trim`: drop leading and trailing whitespace. -/
def jsTrim (s : String) : String :=
  ⟨((s.data.dropWhile Char.isWhitespace).reverse.dropWhile Char.isWhitespace).reverse⟩

/-- Auxiliary splitter: JS `String.prototype.split` with a one-character
separator, accumulating the current piece in reverse. -/
def splitAux (sep : Char) : List Char → List Char → List String
  | [], acc => [⟨acc.reverse⟩]
  | c :: rest, acc =>
    if c = sep then ⟨acc.reverse⟩ :: splitAux sep rest []
    else splitAux sep rest (c :: acc)

/-- JS `String.prototype.split` with a one-character separator (the code only
splits on `","`).  Like in JS, splitting the empty string yields `[""]`. -/
def jsSplit (s : String) (sep : Char) : List String :=
  splitAux sep s.data []

/-- JS `String.prototype.toLowerCase`, character by character. -/
def jsToLower (s : String) : String :=
  ⟨s.data.map Char.toLower⟩

/-- A task record, `@typedef Task` of `src/app.js`. `createdAt` is a
millisecond timestamp (`Date.now()`), modelled as an integer. -/
structure Task where
  id : String
  title : String
  completed : Bool
  createdAt : Int
  tags : List String
deriving Repr, DecidableEq

/-- JSON values as produced by `JSON.parse` (numbers restricted to the
integers, which covers everything this program ever stores). -/
inductive Json where
  | null : Json
  | bool : Bool → Json
  | num : Int → Json
  | str : String → Json
  | arr : List Json → Json
  | obj : List (String × Json) → Json

/-- JS property access `v.k` on a parsed JSON value: a present object field
gives its value, a missing field and any boxed primitive or array give
`undefined`, modelled as `none`, and access on `null` throws a TypeError,
modelled as `Except.error`. -/
def Json.get : Json → String → Except Unit (Option Json)
  | .null, _ => .error ()
  | .obj fields, k => .ok (List.lookup k fields)
  | _, _ => .ok none

/-- JS nullish coalescing `x ?? d` applied to a (possibly `undefined`)
property: `null` and `undefined` fall through to the default. -/
def nullish (x : Option Json) (d : Json) : Json :=
  match x with
  | none => d
  | some .null => d
  | some v => v

/-- JS truthiness of a (possibly `undefined`) property, as used by
`Boolean(t.completed)`: `undefined`, `null`, `false`, `0` and `""` are falsy,
everything else is truthy. -/
def jsTruthy : Option Json → Bool
  | none => false
  | some .null => false
  | some (.bool b) => b
  | some (.num n) => n != 0
  | some (.str s) => s != ""
  | some (.arr _) => true
  | some (.obj _) => true

mutual

/-- JS `String(v)` coercion on a parsed JSON value.  Array elements join with
commas as in `Array.prototype.toString`, with `null` elements rendered
empty. -/
def jsToString : Json → String
  | .null => "null"
  | .bool b => if b then "true" else "false"
  | .num n => toString n
  | .str s => s
  | .arr l => jsArrJoin l
  | .obj _ => "[object Object]"

/-- Join of array elements for `jsToString`, comma separated. -/
def jsArrJoin : List Json → String
  | [] => ""
  | [Json.null] => ""
  | [x] => jsToString x
  | Json.null :: y :: rest => "," ++ jsArrJoin (y :: rest)
  | x :: y :: rest => jsToString x ++ "," ++ jsArrJoin (y :: rest)

end

/-- JS `Number(v)` coercion on a parsed JSON value, for `Number(t.createdAt
?? Date.now())`.  Numeric values pass through; `null` and booleans coerce
arithmetically.  String and container coercion (which in JS can yield `NaN`)
is modelled as 0; no claim depends on those cases. -/
def jsToNumber : Json → Int
  | .null => 0
  | .bool b => if b then 1 else 0
  | .num n => n
  | .str _ => 0
  | .arr _ => 0
  | .obj _ => 0

/-- The tags clause of the record coercion: a stored sequence becomes its
elements coerced to text, trimmed, and filtered of empties; any non-sequence
value yields the empty sequence (`Array.isArray` guard). -/
def coerceTags (tagsv : Option Json) : List String :=
  match tagsv with
  | some (.arr l) => (l.map fun tag => jsTrim (jsToString tag)).filter (· ≠ "")
  | _ => []

/-- Field-by-field coercion of one stored record, the body of the `map` in
`loadTasks` (src/app.js lines 62-70).  `freshId` stands for the
`crypto.randomUUID()` fallback and `now` for `Date.now()`.  Each field
access on the record can throw (it does exactly when the record is `null`),
and a thrown TypeError aborts the whole `map`; the accesses are performed in
source order, so a `null` record fails at `t.id` and produces no task. -/
def coerceTask (freshId : String) (now : Int) (t : Json) : Except Unit Task :=
  match t.get "id" with
  | .error e => .error e
  | .ok idv =>
    match t.get "title" with
    | .error e => .error e
    | .ok titlev =>
      match t.get "completed" with
      | .error e => .error e
      | .ok completedv =>
        match t.get "createdAt" with
        | .error e => .error e
        | .ok createdv =>
          match t.get "tags" with
          | .error e => .error e
          | .ok tagsv =>
            .ok { id := jsToString (nullish idv (.str freshId))
                  title := jsTrim (jsToString (nullish titlev (.str "")))
                  completed := jsTruthy completedv
                  createdAt := jsToNumber (nullish createdv (.num now))
                  tags := coerceTags tagsv }

/-- Coerce a parsed array of records, threading an index into the fresh-id
supply so each record can receive its own generated id.  A TypeError thrown
on any element (a `null` record) aborts the whole `map`. -/
def coerceTasks (freshIds : Nat → String) (now : Int) :
    Nat → List Json → Except Unit (List Task)
  | _, [] => .ok []
  | i, t :: rest =>
    match coerceTask (freshIds i) now t with
    | .error e => .error e
    | .ok task =>
      match coerceTasks freshIds now (i + 1) rest with
      | .error e => .error e
      | .ok tasks2 => .ok (task :: tasks2)

/-- The three ways the stored value can present itself to `loadTasks`:
no stored value (`getItem` returned null), a value on which `JSON.parse`
throws, or a value parsing to a JSON value. -/
inductive Stored where
  | absent : Stored
  | corrupt : Stored
  | value : Json → Stored

/-- `loadTasks` (src/app.js lines 56-76) as a function from the stored value
and the previous in-memory collection (`[]` at startup) to the new
collection.  An absent value returns early, leaving `tasks` unchanged; a
parse failure is caught and resets `tasks` to `[]`; a parsed non-array
leaves `tasks` unchanged; a parsed array is coerced record by record, and a
TypeError thrown while coercing (a `null` element) is caught by the same
`catch`, which resets `tasks` to `[]`.  The function is total: no failure
propagates to the caller. -/
def loadTasks (freshIds : Nat → String) (now : Int) (stored : Stored)
    (tasks : List Task) : List Task :=
  match stored with
  | .absent => tasks
  | .corrupt => []
  | .value j =>
    match j with
    | .arr l =>
      match coerceTasks freshIds now 0 l with
      | .ok newTasks => newTasks
      | .error _ => []
    | _ => tasks

/-- Encoding of one task by `JSON.stringify` in `saveTasks`, at the JSON
value level. -/
def encodeTask (t : Task) : Json :=
  .obj [("id", .str t.id), ("title", .str t.title), ("completed", .bool t.completed),
        ("createdAt", .num t.createdAt), ("tags", .arr (t.tags.map .str))]

/-- `saveTasks` (src/app.js lines 78-84): the JSON value written to storage
(`JSON.stringify(tasks)` serialises exactly this value). -/
def saveTasks (tasks : List Task) : Json :=
  .arr (tasks.map encodeTask)

/-- `updateTaskCount` (src/app.js lines 91-103): the count summary text and
the disabled flag of the clear-completed button. -/
def updateTaskCount (tasks : List Task) : String × Bool :=
  let remaining := (tasks.filter fun t => !t.completed).length
  let total := tasks.length
  let text :=
    if total > 0 then
      if remaining = 0 then "All done"
      else
        toString remaining ++ " of " ++ toString total ++ " task" ++
          (if total = 1 then "" else "s") ++ " left"
    else "No tasks"
  (text, tasks.all fun t => !t.completed)

/-- The two sort modes of the select control (src/app.js line 294 coerces
every other value to `"createdAt"`). -/
inductive SortMode where
  | createdAt : SortMode
  | tag : SortMode
deriving Repr, DecidableEq

/-- JS truthiness of the `activeTagFilter` variable, which is `null` or a
string. -/
def optTruthy : Option String → Bool
  | none => false
  | some s => s ≠ ""

/-- `setActiveTagFilter` (src/app.js lines 34-41): the resulting
`(activeTagFilter, activeTagLabel)` pair. -/
def setActiveTagFilter (tagLabel : Option String) : Option String × String :=
  match tagLabel with
  | none => (none, "")
  | some s => if s = "" then (none, "") else (some (jsToLower s), s)

/-- The filtering step of `renderTasks` (src/app.js lines 175-182): with no
active filter all tasks are visible, otherwise those having some tag whose
lowercase form equals the (already lowercased) filter.  The
`Array.isArray(t.tags)` guard always holds in the typed model. -/
def visibleTasks (activeTagFilter : Option String) (tasks : List Task) : List Task :=
  match activeTagFilter with
  | none => tasks
  | some f => tasks.filter fun t => t.tags.any fun tag => jsToLower tag == f

/-- The key `(a.tags && a.tags[0] ? a.tags[0] : "").toLowerCase()` used by
the by-tag comparator. -/
def firstTagLower (t : Task) : String :=
  jsToLower (t.tags.headD "")

/-- `String.prototype.localeCompare`, modelled as code-point comparison via
the linear order on strings; on the lowercased tags compared by this program
it agrees with the default locale ordering. -/
def localeCompare (a b : String) : Int :=
  if a < b then -1 else if b < a then 1 else 0

/-- The comparator passed to `sort` in `renderTasks`
(src/app.js lines 198-217). -/
def cmpTasks (mode : SortMode) (a b : Task) : Int :=
  match mode with
  | .tag =>
    if firstTagLower a = "" ∧ firstTagLower b = "" then a.createdAt - b.createdAt
    else if firstTagLower a = "" then 1
    else if firstTagLower b = "" then -1
    else if localeCompare (firstTagLower a) (firstTagLower b) ≠ 0 then
      localeCompare (firstTagLower a) (firstTagLower b)
    else a.createdAt - b.createdAt
  | .createdAt => a.createdAt - b.createdAt

/-- The comparator as a Boolean "less or equal" relation, the form a stable
sort consumes. -/
def taskLe (mode : SortMode) (a b : Task) : Bool :=
  cmpTasks mode a b ≤ 0

/-- `[...visibleTasks].sort(cmp)`: ECMAScript `Array.prototype.sort` is a
stable sort by the comparator, modelled by `List.mergeSort`; the spread makes
it operate on a copy. -/
def sortVisible (mode : SortMode) (tasks : List Task) : List Task :=
  tasks.mergeSort (taskLe mode)

/-- The three shapes the rendered list can take: the filter-specific empty
message, the generic empty message, or the sorted visible tasks. -/
inductive ListView where
  | emptyWithFilter : String → ListView
  | emptyNoFilter : ListView
  | items : List Task → ListView
deriving Repr, DecidableEq

/-- What one call to `renderTasks` puts on screen. -/
structure RenderOutput where
  view : ListView
  count : String × Bool
deriving Repr, DecidableEq

/-- The module-level mutable state read by `renderTasks`. -/
structure AppState where
  tasks : List Task
  sortMode : SortMode
  activeTagFilter : Option String
  activeTagLabel : String

/-- `renderTasks` (src/app.js lines 172-225): computes the view from the
state and returns the state it leaves behind, which is unchanged — the sort
runs on the spread copy `[...visibleTasks]`, never on `tasks` itself. -/
def renderTasks (s : AppState) : AppState × RenderOutput :=
  let visible := visibleTasks s.activeTagFilter s.tasks
  let view :=
    if visible.length = 0 then
      if optTruthy s.activeTagFilter && s.activeTagLabel ≠ "" then
        ListView.emptyWithFilter s.activeTagLabel
      else ListView.emptyNoFilter
    else ListView.items (sortVisible s.sortMode visible)
  (s, ⟨view, updateTaskCount s.tasks⟩)

/-- `parseTags` (src/app.js lines 227-233): split on commas, trim each
piece, keep the truthy (non-empty) pieces.  `!input` guards the empty
string. -/
def parseTags (input : String) : List String :=
  if input = "" then []
  else ((jsSplit input ',').map jsTrim).filter (· ≠ "")

/-- `addTask` (src/app.js lines 235-250) on the collection: returns the new
collection and whether `saveTasks` was reached (`false` means the blank-title
early return fired, so nothing was persisted).  `freshId` stands for the
generated id and `now` for `Date.now()`. -/
def addTask (tasks : List Task) (title tagsInput : String) (freshId : String)
    (now : Int) : List Task × Bool :=
  let trimmed := jsTrim title
  if trimmed = "" then (tasks, false)
  else
    (tasks ++ [{ id := freshId, title := trimmed, completed := false,
                 createdAt := now, tags := parseTags tagsInput }], true)

/-- `removeTask` (src/app.js lines 252-256) on the collection. -/
def removeTask (id : String) (tasks : List Task) : List Task :=
  tasks.filter fun t => t.id ≠ id

/-- `toggleTaskCompleted` (src/app.js lines 258-264) on the collection. -/
def toggleTaskCompleted (id : String) (tasks : List Task) : List Task :=
  tasks.map fun t => if t.id = id then { t with completed := !t.completed } else t

/-- `clearCompletedTasks` (src/app.js lines 266-270) on the collection. -/
def clearCompletedTasks (tasks : List Task) : List Task :=
  tasks.filter fun t => !t.completed

/-- JS `Array.isArray` on a parsed JSON value. -/
def Json.isArr : Json → Bool
  | .arr _ => true
  | _ => false

/-- The count summary exactly as the claim describes it, as a function of the
total count `T` and the remaining-incomplete count `R`. -/
def specCountSummary (T R : Nat) : String :=
  if T = 0 then "No tasks"
  else if R = 0 then "All done"
  else toString R ++ " of " ++ toString T ++ (if T = 1 then " task left" else " tasks left")

/-- Tag parsing exactly as the claim describes it: split the raw text on
commas, trim each piece, and discard the empty pieces, preserving order and
keeping duplicates. -/
def specTags (raw : String) : List String :=
  ((jsSplit raw ',').map jsTrim).filter (· ≠ "")

/-- A sample stored record with no id, an untrimmed title, and mixed tags,
used to exercise the load-time coercion. -/
def exRecord : Json :=
  .obj [("title", .str "  Pay rent "), ("completed", .bool true),
        ("createdAt", .num 42), ("tags", .arr [.str " home ", .str "", .num 3])]

/-- A small well-formed collection for the round-trip witness. -/
def exCollection : List Task :=
  [⟨"id-1", "Buy milk", false, 1, ["home", "errands"]⟩,
   ⟨"id-2", "Call mom", true, 2, []⟩]

/-- The code-level by-tag order: what `cmpTasks .tag a b ≤ 0` unfolds to,
phrased on the lowercased first-tag keys. -/
def codeTagLe (a b : Task) : Prop :=
  (firstTagLower a = "" ∧ firstTagLower b = "" ∧ a.createdAt ≤ b.createdAt) ∨
  (firstTagLower a ≠ "" ∧ firstTagLower b = "") ∨
  (firstTagLower a ≠ "" ∧ firstTagLower b ≠ "" ∧
    (firstTagLower a < firstTagLower b ∨
      (firstTagLower a = firstTagLower b ∧ a.createdAt ≤ b.createdAt)))

/-- The by-tag display order exactly as the claim describes it: tasks with no
tags come after all tagged tasks and are ordered among themselves by
ascending creation time; tagged tasks are compared by locale-aware ordering
of the lowercased first tag, with ties broken by ascending creation time. -/
def specByTagLe (a b : Task) : Prop :=
  match a.tags, b.tags with
  | [], [] => a.createdAt ≤ b.createdAt
  | [], _ :: _ => False
  | _ :: _, [] => True
  | ta :: _, tb :: _ =>
    localeCompare (jsToLower ta) (jsToLower tb) < 0 ∨
      (localeCompare (jsToLower ta) (jsToLower tb) = 0 ∧ a.createdAt ≤ b.createdAt)

/-- Sample tasks for the sorting witness: the spec's createdAt = [3,1,2]
example merged with its first-tag ["b", none, "a"] example. -/
def exSortTasks : List Task :=
  [⟨"1", "A", false, 3, []⟩, ⟨"2", "B", false, 1, ["b"]⟩, ⟨"3", "C", false, 2, ["a"]⟩]

/-- A sample task tagged "home" for the filter witness. -/
def exHome : Task := ⟨"h1", "Sweep", false, 5, ["home"]⟩

/-- C3 counterexample: on a collection of 3 total tasks with exactly 1
incomplete, the summary reads "1 of 3 tasks left" (the remaining count is the
incomplete count), not "2 of 3 tasks left" as the claim asserts. -/
theorem C3_counterexample :
    (updateTaskCount
        [⟨"a", "A", true, 1, []⟩, ⟨"b", "B", true, 2, []⟩, ⟨"c", "C", false, 3, []⟩]).1 =
      "1 of 3 tasks left" ∧
    "1 of 3 tasks left" ≠ "2 of 3 tasks left" := by
  decide

/-- C3 (amended): the count summary, as a function of total count T and
remaining-incomplete count R, is "No tasks" when T = 0; otherwise "All done"
when R = 0; otherwise "{R} of {T} task(s) left" with "task" singular exactly
when T = 1; in particular, on a collection of 3 total tasks with 2 incomplete
the summary reads "2 of 3 tasks left". -/
theorem C3_count_summary :
    (∀ tasks : List Task,
        (updateTaskCount tasks).1 =
          specCountSummary tasks.length ((tasks.filter fun t => !t.completed).length)) ∧
    (updateTaskCount
        [⟨"a", "A", true, 1, []⟩, ⟨"b", "B", false, 2, []⟩, ⟨"c", "C", false, 3, []⟩]).1 =
      "2 of 3 tasks left" := by
  constructor
  · intro ts
    simp only [updateTaskCount, specCountSummary]
    by_cases hT : ts.length = 0
    · simp [hT]
    · rw [if_pos (Nat.pos_of_ne_zero hT), if_neg hT]
      by_cases hR : (ts.filter fun t => !t.completed).length = 0
      · simp [hR]
      · rw [if_neg hR, if_neg hR]
        by_cases h1 : ts.length = 1
        · rw [if_pos h1, if_pos h1, String.append_empty, String.append_assoc]
          have h2 : (" task" ++ " left" : String) = " task left" := by decide
          rw [h2]
        · rw [if_neg h1, if_neg h1, String.append_assoc, String.append_assoc]
          have h2 : (" task" ++ ("s" ++ " left") : String) = " tasks left" := by decide
          rw [h2]
  · decide

/-- C6: a stored value that fails to parse (corrupt encoding) or parses to a
non-sequence leaves `loadTasks` with the empty collection (the in-memory
collection is empty at startup); totality of the embedded function models
that no exception escapes to the caller. -/
theorem C6_load_corrupt_or_nonsequence :
    ∀ (freshIds : Nat → String) (now : Int),
      (∀ tasks0, loadTasks freshIds now .corrupt tasks0 = []) ∧
      (∀ j : Json, j.isArr = false → loadTasks freshIds now (.value j) [] = []) := by
  intro f n
  refine ⟨fun ts => rfl, fun j h => ?_⟩
  cases j <;> first
    | rfl
    | simp [Json.isArr] at h

/-- C6 witness: a corrupt stored value over a non-empty previous collection,
and a parsed non-sequence value, both load as the empty collection. -/
theorem C6_load_witness :
    loadTasks (fun _ => "fresh") 0 .corrupt [⟨"a", "A", false, 1, []⟩] = [] ∧
    loadTasks (fun _ => "fresh") 0 (.value (.str "notjson")) [] = [] :=
  ⟨(C6_load_corrupt_or_nonsequence (fun _ => "fresh") 0).1 _,
   (C6_load_corrupt_or_nonsequence (fun _ => "fresh") 0).2 (.str "notjson") rfl⟩

/-- C7: adding with a title that trims to empty is a no-op: the collection is
returned unchanged and the persistence flag is false. -/
theorem C7_add_blank_noop :
    ∀ (tasks : List Task) (title tagsText freshId : String) (now : Int),
      jsTrim title = "" →
      addTask tasks title tagsText freshId now = (tasks, false) := by
  intro ts title tt fid now h
  simp [addTask, h]

/-- C7 witness: the two spec examples, `add("", "x,y")` and
`add("   ", "")`, leave the collection unchanged and persist nothing. -/
theorem C7_add_blank_witness :
    addTask [] "" "x,y" "id1" 5 = ([], false) ∧
    addTask [⟨"a", "A", false, 0, []⟩] "   " "" "id2" 6 =
      ([⟨"a", "A", false, 0, []⟩], false) :=
  ⟨C7_add_blank_noop [] "" "x,y" "id1" 5 (by decide),
   C7_add_blank_noop [⟨"a", "A", false, 0, []⟩] "   " "" "id2" 6 (by decide)⟩

/-- The repository parser agrees with the claim-side description, including
on the empty string which the source guards separately. -/
theorem parseTags_eq_specTags : ∀ raw, parseTags raw = specTags raw := by
  intro raw
  by_cases h : raw = ""
  · subst h; decide
  · simp [parseTags, specTags, h]

/-- C8: adding with a non-blank title appends exactly one task at the end,
whose tags come from splitting the raw tags text on commas, trimming, and
dropping empties; in particular `add("Buy milk", "home, errands, ,home")`
yields the tags `["home", "errands", "home"]`. -/
theorem C8_add_appends :
    (∀ (tasks : List Task) (title tagsText freshId : String) (now : Int),
        jsTrim title ≠ "" →
        addTask tasks title tagsText freshId now =
          (tasks ++ [{ id := freshId, title := jsTrim title, completed := false,
                       createdAt := now, tags := specTags tagsText }], true)) ∧
    (∀ (freshId : String) (now : Int),
        addTask [] "Buy milk" "home, errands, ,home" freshId now =
          ([{ id := freshId, title := "Buy milk", completed := false,
              createdAt := now, tags := ["home", "errands", "home"] }], true)) := by
  constructor
  · intro ts title tt fid now h
    simp [addTask, h, parseTags_eq_specTags]
  · intro fid now
    have h1 : jsTrim "Buy milk" = "Buy milk" := by decide
    have h2 : specTags "home, errands, ,home" = ["home", "errands", "home"] := by decide
    simp [addTask, h1, parseTags_eq_specTags, h2]

/-- C8 witness: one concrete non-blank add, appending to a non-empty
collection. -/
theorem C8_add_witness :
    addTask [⟨"a", "A", false, 0, []⟩] " Buy milk " "home, errands, ,home" "id9" 7 =
      ([⟨"a", "A", false, 0, []⟩,
        ⟨"id9", "Buy milk", false, 7, ["home", "errands", "home"]⟩], true) := by
  have h := C8_add_appends.1 [⟨"a", "A", false, 0, []⟩] " Buy milk "
    "home, errands, ,home" "id9" 7 (by decide)
  rw [h, show jsTrim " Buy milk " = "Buy milk" from by decide,
      show specTags "home, errands, ,home" = ["home", "errands", "home"] from by decide]
  rfl

/-- C9: projecting the view never changes the underlying collection: the
state `renderTasks` leaves behind carries the same task list, element for
element — the sort runs on the spread copy only. -/
theorem C9_render_preserves_tasks :
    ∀ s : AppState, (renderTasks s).1.tasks = s.tasks :=
  fun _ => rfl

/-- C10: toggling the same id twice restores the original collection: every
task keeps all its fields and its position. -/
theorem C10_toggle_involutive :
    ∀ (i : String) (tasks : List Task),
      toggleTaskCompleted i (toggleTaskCompleted i tasks) = tasks := by
  intro i ts
  induction ts with
  | nil => rfl
  | cons t rest ih =>
    obtain ⟨tid, ttl, tc, tca, ttg⟩ := t
    simp only [toggleTaskCompleted, List.map_cons] at ih ⊢
    rw [ih]
    by_cases h : tid = i <;> simp [h]

/-- Access on a non-null value always succeeds. -/
theorem Json.get_ok_of_ne_null (r : Json) (h : r ≠ Json.null) (k : String) :
    ∃ v, r.get k = Except.ok v := by
  cases r with
  | null => exact absurd rfl h
  | bool b => exact ⟨none, rfl⟩
  | num n => exact ⟨none, rfl⟩
  | str s => exact ⟨none, rfl⟩
  | arr l => exact ⟨none, rfl⟩
  | obj fields => exact ⟨_, rfl⟩

/-- Coercing a non-null record never throws. -/
theorem coerceTask_ok_of_ne_null (freshId : String) (now : Int) (r : Json)
    (h : r ≠ Json.null) : ∃ t, coerceTask freshId now r = Except.ok t := by
  cases r with
  | null => exact absurd rfl h
  | bool b => exact ⟨_, rfl⟩
  | num n => exact ⟨_, rfl⟩
  | str s => exact ⟨_, rfl⟩
  | arr l => exact ⟨_, rfl⟩
  | obj fields => exact ⟨_, rfl⟩

/-- Coercing a sequence of non-null records succeeds and keeps every
record. -/
theorem coerceTasks_ok_of_ne_null (freshIds : Nat → String) (now : Int) :
    ∀ records : List Json, (∀ rec ∈ records, rec ≠ Json.null) →
      ∀ i, ∃ tasks2, coerceTasks freshIds now i records = Except.ok tasks2 ∧
        tasks2.length = records.length := by
  intro records
  induction records with
  | nil => exact fun _ i => ⟨[], rfl, rfl⟩
  | cons rec rest ih =>
    intro hnn i
    obtain ⟨t, ht⟩ :=
      coerceTask_ok_of_ne_null (freshIds i) now rec (hnn rec (List.mem_cons_self rec rest))
    obtain ⟨ts2, hts2, hlen⟩ := ih (fun x hx => hnn x (List.mem_cons_of_mem rec hx)) (i + 1)
    refine ⟨t :: ts2, ?_, by simp [hlen]⟩
    simp only [coerceTasks, ht, hts2]

/-- A null element makes the coercion of the whole sequence throw. -/
theorem coerceTasks_error_of_null (freshIds : Nat → String) (now : Int) :
    ∀ (l1 : List Json) (i : Nat) (l2 : List Json),
      coerceTasks freshIds now i (l1 ++ Json.null :: l2) = Except.error () := by
  intro l1
  induction l1 with
  | nil => exact fun i l2 => rfl
  | cons x xs ih =>
    intro i l2
    simp only [List.cons_append, coerceTasks]
    by_cases hx : x = Json.null
    · subst hx; rfl
    · obtain ⟨t, ht⟩ := coerceTask_ok_of_ne_null (freshIds i) now x hx
      simp only [ht, List.append_eq, ih (i + 1) l2]

/-- C5: load-time coercion of one stored record, field by field — for every
stored record (a non-null element; field access on a null element throws and
the catch discards the whole load): a missing (or null) id becomes the
freshly generated id; a textual title is trimmed (and a record whose title
trims to empty is still kept — coercion succeeds and the record count is
preserved); a missing title becomes the empty title; a boolean completed
passes through and a missing one defaults to false; a missing or null
createdAt defaults to the current time and a numeric one passes through;
stored tags that form a sequence become the trimmed non-empty strings of
that sequence, and any non-sequence tags value yields the empty sequence.
The last conjunct records the complementary path: a null element aborts the
load, leaving the empty collection. -/
theorem C5_load_coercion :
    (∀ (r : Json) (freshId : String) (now : Int), r ≠ Json.null →
      ∃ task, coerceTask freshId now r = Except.ok task ∧
        ((r.get "id" = .ok none ∨ r.get "id" = .ok (some .null)) →
          task.id = freshId) ∧
        (∀ s, r.get "title" = .ok (some (.str s)) → task.title = jsTrim s) ∧
        (r.get "title" = .ok none → task.title = "") ∧
        (∀ b, r.get "completed" = .ok (some (.bool b)) → task.completed = b) ∧
        (r.get "completed" = .ok none → task.completed = false) ∧
        ((r.get "createdAt" = .ok none ∨ r.get "createdAt" = .ok (some .null)) →
          task.createdAt = now) ∧
        (∀ n2, r.get "createdAt" = .ok (some (.num n2)) → task.createdAt = n2) ∧
        (∀ l, r.get "tags" = .ok (some (.arr l)) →
          task.tags = (l.map fun x => jsTrim (jsToString x)).filter (· ≠ "")) ∧
        ((∀ l, r.get "tags" ≠ .ok (some (.arr l))) → task.tags = [])) ∧
    (∀ (freshIds : Nat → String) (now : Int) (records : List Json),
      (∀ rec ∈ records, rec ≠ Json.null) →
      ∀ i, ∃ tasks2, coerceTasks freshIds now i records = Except.ok tasks2 ∧
        tasks2.length = records.length) ∧
    (∀ (freshIds : Nat → String) (now : Int) (tasks0 : List Task)
      (l1 l2 : List Json),
      loadTasks freshIds now (.value (.arr (l1 ++ Json.null :: l2))) tasks0 = []) := by
  refine ⟨?_, coerceTasks_ok_of_ne_null, ?_⟩
  · intro r fid now hr
    obtain ⟨v1, h1⟩ := Json.get_ok_of_ne_null r hr "id"
    obtain ⟨v2, h2⟩ := Json.get_ok_of_ne_null r hr "title"
    obtain ⟨v3, h3⟩ := Json.get_ok_of_ne_null r hr "completed"
    obtain ⟨v4, h4⟩ := Json.get_ok_of_ne_null r hr "createdAt"
    obtain ⟨v5, h5⟩ := Json.get_ok_of_ne_null r hr "tags"
    have hok : coerceTask fid now r =
        Except.ok { id := jsToString (nullish v1 (.str fid))
                    title := jsTrim (jsToString (nullish v2 (.str "")))
                    completed := jsTruthy v3
                    createdAt := jsToNumber (nullish v4 (.num now))
                    tags := coerceTags v5 } := by
      unfold coerceTask
      rw [h1, h2, h3, h4, h5]
    refine ⟨_, hok, ?_, ?_, ?_, ?_, ?_, ?_, ?_, ?_, ?_⟩
    · rintro (hid | hid) <;> rw [h1] at hid <;>
        simp only [Except.ok.injEq] at hid <;> subst hid <;>
        simp [nullish, jsToString]
    · intro s hs
      rw [h2] at hs
      simp only [Except.ok.injEq] at hs
      subst hs
      simp [nullish, jsToString]
    · intro hs
      rw [h2] at hs
      simp only [Except.ok.injEq] at hs
      subst hs
      simp [nullish, jsToString, jsTrim]
    · intro b hb
      rw [h3] at hb
      simp only [Except.ok.injEq] at hb
      subst hb
      simp [jsTruthy]
    · intro hb
      rw [h3] at hb
      simp only [Except.ok.injEq] at hb
      subst hb
      simp [jsTruthy]
    · rintro (hc | hc) <;> rw [h4] at hc <;>
        simp only [Except.ok.injEq] at hc <;> subst hc <;>
        simp [nullish, jsToNumber]
    · intro n2 hn
      rw [h4] at hn
      simp only [Except.ok.injEq] at hn
      subst hn
      simp [nullish, jsToNumber]
    · intro l hl
      rw [h5] at hl
      simp only [Except.ok.injEq] at hl
      subst hl
      rfl
    · intro h9
      have h9x : ∀ l, v5 ≠ some (Json.arr l) :=
        fun l hl => h9 l (h5.trans (congrArg Except.ok hl))
      rcases v5 with _ | j
      · rfl
      · cases j with
        | arr l => exact absurd rfl (h9x l)
        | null => rfl
        | bool b => rfl
        | num n => rfl
        | str s => rfl
        | obj fields => rfl
  · intro freshIds now tasks0 l1 l2
    simp only [loadTasks, coerceTasks_error_of_null freshIds now l1 0 l2]

/-- C5 witness: coercing the sample record gives a fresh id, the trimmed
title, the stored completed flag and timestamp, and the trimmed non-empty
string forms of the stored tags; loading an array holding a null element
over a non-empty previous collection yields the empty collection. -/
theorem C5_load_witness :
    (∃ task, coerceTask "fresh-1" 99 exRecord = Except.ok task ∧
      task.id = "fresh-1" ∧ task.title = "Pay rent" ∧ task.completed = true ∧
      task.createdAt = 42 ∧ task.tags = ["home", "3"]) ∧
    loadTasks (fun _ => "fresh") 0 (.value (.arr [Json.null]))
      [⟨"a", "A", false, 1, []⟩] = [] := by
  constructor
  · obtain ⟨task, hok, hf1, hf2, hf3, hf4, hf5, hf6, hf7, hf8, hf9⟩ :=
      C5_load_coercion.1 exRecord "fresh-1" 99 (fun h => Json.noConfusion h)
    refine ⟨task, hok, hf1 (Or.inl rfl), ?_, hf4 true rfl, hf7 42 rfl, ?_⟩
    · rw [hf2 "  Pay rent " rfl]; decide
    · rw [hf8 [.str " home ", .str "", .num 3] rfl]; decide
  · exact C5_load_coercion.2.2 (fun _ => "fresh") 0 [⟨"a", "A", false, 1, []⟩] [] [Json.null]

/-- Round trip of a single well-formed task through encode and coerce. -/
theorem coerceTask_encodeTask (fid : String) (now : Int) (t : Task)
    (htitle : jsTrim t.title = t.title)
    (htags : ∀ tag ∈ t.tags, jsTrim tag = tag ∧ tag ≠ "") :
    coerceTask fid now (encodeTask t) = Except.ok t := by
  obtain ⟨tid, ttl, tc, tca, ttg⟩ := t
  have htitle2 : jsTrim ttl = ttl := htitle
  have htags2 : ∀ tag ∈ ttg, jsTrim tag = tag ∧ tag ≠ "" := htags
  have h1 : coerceTask fid now (encodeTask ⟨tid, ttl, tc, tca, ttg⟩) =
      Except.ok ⟨tid, jsTrim ttl, tc, tca,
        ((ttg.map Json.str).map fun tag => jsTrim (jsToString tag)).filter (· ≠ "")⟩ := rfl
  rw [h1, htitle2, List.map_map]
  have hc : ∀ tag ∈ ttg, ((fun tag => jsTrim (jsToString tag)) ∘ Json.str) tag = tag := by
    intro tag h
    show jsTrim (jsToString (Json.str tag)) = tag
    exact (htags2 tag h).1
  rw [List.map_congr_left hc, List.map_id',
      List.filter_eq_self.mpr fun tag h => by simpa using (htags2 tag h).2]

/-- Round trip of a well-formed collection through encode and coerce,
threading the fresh-id index. -/
theorem coerceTasks_encodeTask (freshIds : Nat → String) (now : Int)
    (ts : List Task)
    (hwf : ∀ t ∈ ts, jsTrim t.title = t.title ∧
      ∀ tag ∈ t.tags, jsTrim tag = tag ∧ tag ≠ "") :
    ∀ i, coerceTasks freshIds now i (ts.map encodeTask) = Except.ok ts := by
  induction ts with
  | nil => intro i; rfl
  | cons t rest ih =>
    intro i
    have ht := hwf t (List.mem_cons_self t rest)
    simp only [List.map_cons, coerceTasks]
    rw [coerceTask_encodeTask (freshIds i) now t ht.1 ht.2,
        ih (fun u hu => hwf u (List.mem_cons_of_mem t hu)) (i + 1)]

/-- C1: saving a well-formed collection (trimmed non-empty titles, tags that
are trimmed non-empty strings) and loading it back yields the very same
collection: same ids, titles, completed flags, tags and timestamps, in the
same order. -/
theorem C1_save_load_roundtrip :
    ∀ (tasks0 : List Task) (freshIds : Nat → String) (now : Int)
      (tasksPrev : List Task),
      (∀ t ∈ tasks0, jsTrim t.title = t.title ∧ t.title ≠ "" ∧
        ∀ tag ∈ t.tags, jsTrim tag = tag ∧ tag ≠ "") →
      loadTasks freshIds now (.value (saveTasks tasks0)) tasksPrev = tasks0 := by
  intro ts freshIds now tasksPrev hwf
  simp only [loadTasks, saveTasks]
  rw [coerceTasks_encodeTask freshIds now ts
    (fun t ht => ⟨(hwf t ht).1, (hwf t ht).2.2⟩) 0]

/-- C1 witness: the round trip restores the sample collection exactly. -/
theorem C1_roundtrip_witness :
    loadTasks (fun i => toString i) 1000 (.value (saveTasks exCollection)) [] =
      exCollection :=
  C1_save_load_roundtrip exCollection (fun i => toString i) 1000 [] (by decide)

/-- Lowercasing maps no non-empty string to the empty string. -/
theorem jsToLower_ne_empty (s : String) (h : s ≠ "") : jsToLower s ≠ "" := by
  obtain ⟨data⟩ := s
  intro hq
  apply h
  have h2 : data.map Char.toLower = ([] : List Char) := congrArg String.data hq
  have h3 : data = [] := List.map_eq_nil_iff.mp h2
  rw [h3]

/-- The comparison result is nonpositive exactly for less-or-equal. -/
theorem localeCompare_nonpos (a b : String) : localeCompare a b ≤ 0 ↔ a ≤ b := by
  unfold localeCompare
  split_ifs with h1 h2
  · exact iff_of_true (by norm_num) (le_of_lt h1)
  · exact iff_of_false (by norm_num) (not_le.mpr h2)
  · exact iff_of_true le_rfl (le_of_eq (le_antisymm (not_lt.mp h2) (not_lt.mp h1)))

/-- The comparison result is negative exactly for strictly-less. -/
theorem localeCompare_neg (a b : String) : localeCompare a b < 0 ↔ a < b := by
  unfold localeCompare
  split_ifs with h1 h2
  · exact iff_of_true (by norm_num) h1
  · exact iff_of_false (by norm_num) h1
  · exact iff_of_false (by norm_num) h1

/-- The comparison result is zero exactly for equal strings. -/
theorem localeCompare_eq_zero (a b : String) : localeCompare a b = 0 ↔ a = b := by
  unfold localeCompare
  split_ifs with h1 h2
  · exact iff_of_false (by norm_num) (ne_of_lt h1)
  · exact iff_of_false (by norm_num) (ne_of_gt h2)
  · exact iff_of_true rfl (le_antisymm (not_lt.mp h2) (not_lt.mp h1))

/-- The Boolean comparator in by-tag mode agrees with `codeTagLe`. -/
theorem taskLe_tag_iff (a b : Task) :
    taskLe SortMode.tag a b = true ↔ codeTagLe a b := by
  unfold taskLe cmpTasks codeTagLe
  simp only [decide_eq_true_eq]
  split_ifs with h1 h2 h3 h4
  · obtain ⟨hA, hB⟩ := h1
    constructor
    · intro h; exact Or.inl ⟨hA, hB, by omega⟩
    · rintro (⟨_, _, h⟩ | ⟨hA2, _⟩ | ⟨hA2, _, _⟩)
      · omega
      · exact absurd hA hA2
      · exact absurd hA hA2
  · have hB : firstTagLower b ≠ "" := fun hb => h1 ⟨h2, hb⟩
    constructor
    · intro h; exact absurd h (by norm_num)
    · rintro (⟨_, hb, _⟩ | ⟨hA2, hb⟩ | ⟨hA2, _, _⟩)
      · exact absurd hb hB
      · exact absurd h2 hA2
      · exact absurd h2 hA2
  · exact iff_of_true (by norm_num) (Or.inr (Or.inl ⟨h2, h3⟩))
  · constructor
    · intro h
      exact Or.inr (Or.inr ⟨h2, h3,
        Or.inl ((localeCompare_neg _ _).mp (lt_of_le_of_ne h h4))⟩)
    · rintro (⟨hA2, _, _⟩ | ⟨_, hb⟩ | ⟨_, _, (hlt | ⟨heq, _⟩)⟩)
      · exact absurd hA2 h2
      · exact absurd hb h3
      · exact le_of_lt ((localeCompare_neg _ _).mpr hlt)
      · exact absurd ((localeCompare_eq_zero _ _).mpr heq) h4
  · have heq : firstTagLower a = firstTagLower b :=
      (localeCompare_eq_zero _ _).mp (not_not.mp h4)
    constructor
    · intro h
      exact Or.inr (Or.inr ⟨h2, h3, Or.inr ⟨heq, by omega⟩⟩)
    · rintro (⟨hA2, _, _⟩ | ⟨_, hb⟩ | ⟨_, _, (hlt | ⟨_, hle⟩)⟩)
      · exact absurd hA2 h2
      · exact absurd hb h3
      · exact absurd hlt (heq ▸ lt_irrefl _)
      · omega

/-- The code-level by-tag order is transitive. -/
theorem codeTagLe_trans (a b c : Task) (hab : codeTagLe a b) (hbc : codeTagLe b c) :
    codeTagLe a c := by
  rcases hab with ⟨ha0, hb0, h1⟩ | ⟨ha1, hb0⟩ | ⟨ha1, hb1, h1⟩ <;>
    rcases hbc with ⟨hb0x, hc0, h2⟩ | ⟨hb1x, hc0⟩ | ⟨hb1x, hc1, h2⟩
  · exact Or.inl ⟨ha0, hc0, le_trans h1 h2⟩
  · exact absurd hb0 hb1x
  · exact absurd hb0 hb1x
  · exact Or.inr (Or.inl ⟨ha1, hc0⟩)
  · exact absurd hb0 hb1x
  · exact absurd hb0 hb1x
  · exact absurd hb0x hb1
  · exact Or.inr (Or.inl ⟨ha1, hc0⟩)
  · refine Or.inr (Or.inr ⟨ha1, hc1, ?_⟩)
    rcases h1 with hlt1 | ⟨heq1, hle1⟩ <;> rcases h2 with hlt2 | ⟨heq2, hle2⟩
    · exact Or.inl (lt_trans hlt1 hlt2)
    · exact Or.inl (lt_of_lt_of_eq hlt1 heq2)
    · exact Or.inl (lt_of_eq_of_lt heq1 hlt2)
    · exact Or.inr ⟨heq1.trans heq2, le_trans hle1 hle2⟩

/-- The code-level by-tag order is total. -/
theorem codeTagLe_total (a b : Task) : codeTagLe a b ∨ codeTagLe b a := by
  by_cases hA : firstTagLower a = "" <;> by_cases hB : firstTagLower b = ""
  · rcases le_total a.createdAt b.createdAt with h | h
    · exact Or.inl (Or.inl ⟨hA, hB, h⟩)
    · exact Or.inr (Or.inl ⟨hB, hA, h⟩)
  · exact Or.inr (Or.inr (Or.inl ⟨hB, hA⟩))
  · exact Or.inl (Or.inr (Or.inl ⟨hA, hB⟩))
  · rcases lt_trichotomy (firstTagLower a) (firstTagLower b) with h | h | h
    · exact Or.inl (Or.inr (Or.inr ⟨hA, hB, Or.inl h⟩))
    · rcases le_total a.createdAt b.createdAt with h2 | h2
      · exact Or.inl (Or.inr (Or.inr ⟨hA, hB, Or.inr ⟨h, h2⟩⟩))
      · exact Or.inr (Or.inr (Or.inr ⟨hB, hA, Or.inr ⟨h.symm, h2⟩⟩))
    · exact Or.inr (Or.inr (Or.inr ⟨hB, hA, Or.inl h⟩))

/-- Transitivity of the Boolean comparator relation, either mode. -/
theorem taskLe_trans (mode : SortMode) :
    ∀ a b c : Task, taskLe mode a b = true → taskLe mode b c = true →
      taskLe mode a c = true := by
  intro a b c hab hbc
  cases mode with
  | createdAt =>
    simp only [taskLe, cmpTasks, decide_eq_true_eq] at hab hbc ⊢
    omega
  | tag =>
    rw [taskLe_tag_iff] at hab hbc ⊢
    exact codeTagLe_trans a b c hab hbc

/-- Totality of the Boolean comparator relation, either mode. -/
theorem taskLe_total (mode : SortMode) :
    ∀ a b : Task, (taskLe mode a b || taskLe mode b a) = true := by
  intro a b
  cases mode with
  | createdAt =>
    simp only [taskLe, cmpTasks, Bool.or_eq_true, decide_eq_true_eq]
    omega
  | tag =>
    simp only [Bool.or_eq_true]
    rcases codeTagLe_total a b with h | h
    · exact Or.inl ((taskLe_tag_iff a b).mpr h)
    · exact Or.inr ((taskLe_tag_iff b a).mpr h)

/-- An untagged task has the empty sort key. -/
theorem firstTagLower_nil (t : Task) (h : t.tags = []) : firstTagLower t = "" := by
  unfold firstTagLower
  rw [h]
  rfl

/-- The sort key of a tagged task is its lowercased first tag. -/
theorem firstTagLower_cons (t : Task) (ta : String) (rest : List String)
    (h : t.tags = ta :: rest) : firstTagLower t = jsToLower ta := by
  unfold firstTagLower
  rw [h]
  rfl

/-- For tasks with no empty-string tags, the code-level by-tag order implies
the claim-level one. -/
theorem codeTagLe_implies_spec (a b : Task)
    (ha : ∀ tag ∈ a.tags, tag ≠ "") (hb : ∀ tag ∈ b.tags, tag ≠ "")
    (h : codeTagLe a b) : specByTagLe a b := by
  rcases hta : a.tags with _ | ⟨ta, tas⟩ <;> rcases htb : b.tags with _ | ⟨tb, tbs⟩
  · have hA := firstTagLower_nil a hta
    simp only [specByTagLe, hta, htb]
    rcases h with ⟨_, _, hle⟩ | ⟨hA2, _⟩ | ⟨hA2, _, _⟩
    · exact hle
    · exact absurd hA hA2
    · exact absurd hA hA2
  · have hA := firstTagLower_nil a hta
    have htbne : tb ≠ "" := hb tb (by rw [htb]; exact List.mem_cons_self tb tbs)
    have hBne : firstTagLower b ≠ "" := by
      rw [firstTagLower_cons b tb tbs htb]
      exact jsToLower_ne_empty tb htbne
    simp only [specByTagLe, hta, htb]
    rcases h with ⟨_, hB2, _⟩ | ⟨hA2, hB2x⟩ | ⟨hA2, _, _⟩
    · exact absurd hB2 hBne
    · exact absurd hA hA2
    · exact absurd hA hA2
  · simp [specByTagLe, hta, htb]
  · have hA := firstTagLower_cons a ta tas hta
    have hB := firstTagLower_cons b tb tbs htb
    have hane : ta ≠ "" := ha ta (by rw [hta]; exact List.mem_cons_self ta tas)
    have hbne : tb ≠ "" := hb tb (by rw [htb]; exact List.mem_cons_self tb tbs)
    have hAne : firstTagLower a ≠ "" := by
      rw [hA]; exact jsToLower_ne_empty ta hane
    have hBne : firstTagLower b ≠ "" := by
      rw [hB]; exact jsToLower_ne_empty tb hbne
    simp only [specByTagLe, hta, htb]
    rw [← hA, ← hB]
    rcases h with ⟨hA0, _, _⟩ | ⟨_, hB0⟩ | ⟨_, _, hlt | ⟨heq, hle⟩⟩
    · exact absurd hA0 hAne
    · exact absurd hB0 hBne
    · exact Or.inl ((localeCompare_neg _ _).mpr hlt)
    · exact Or.inr ⟨(localeCompare_eq_zero _ _).mpr heq, hle⟩

/-- C2: for well-formed tasks (no empty-string tags), the projector's sort
in by-creation-time mode yields a permutation of its input ordered by
ascending createdAt; in by-tag mode it yields a permutation ordered by the
claim's first-tag order: untagged tasks after all tagged ones and among
themselves by ascending createdAt, tagged tasks by locale-aware comparison
of the lowercased first tag with ties broken by ascending createdAt. -/
theorem C2_sort_order :
    ∀ tasks : List Task, (∀ t ∈ tasks, ∀ tag ∈ t.tags, tag ≠ "") →
      ((sortVisible SortMode.createdAt tasks).Perm tasks ∧
        List.Pairwise (fun a b : Task => a.createdAt ≤ b.createdAt)
          (sortVisible SortMode.createdAt tasks)) ∧
      ((sortVisible SortMode.tag tasks).Perm tasks ∧
        List.Pairwise specByTagLe (sortVisible SortMode.tag tasks)) := by
  intro ts hwf
  refine ⟨⟨List.mergeSort_perm ts _, ?_⟩, ⟨List.mergeSort_perm ts _, ?_⟩⟩
  · have h := @List.sorted_mergeSort Task (taskLe SortMode.createdAt)
      (taskLe_trans SortMode.createdAt) (taskLe_total SortMode.createdAt) ts
    exact h.imp fun hab => by
      simp only [taskLe, cmpTasks, decide_eq_true_eq] at hab
      omega
  · have h := @List.sorted_mergeSort Task (taskLe SortMode.tag)
      (taskLe_trans SortMode.tag) (taskLe_total SortMode.tag) ts
    have hperm := List.mergeSort_perm ts (taskLe SortMode.tag)
    refine List.Pairwise.imp_of_mem ?_ h
    intro a b hamem hbmem hab
    exact codeTagLe_implies_spec a b (hwf a (hperm.mem_iff.mp hamem))
      (hwf b (hperm.mem_iff.mp hbmem)) ((taskLe_tag_iff a b).mp hab)

/-- C2 witness: the sort-order theorem applied to the sample tasks. -/
theorem C2_sort_witness :
    ((sortVisible SortMode.createdAt exSortTasks).Perm exSortTasks ∧
      List.Pairwise (fun a b : Task => a.createdAt ≤ b.createdAt)
        (sortVisible SortMode.createdAt exSortTasks)) ∧
    ((sortVisible SortMode.tag exSortTasks).Perm exSortTasks ∧
      List.Pairwise specByTagLe (sortVisible SortMode.tag exSortTasks)) :=
  C2_sort_order exSortTasks (by decide)

/-- C4: with no active filter every task is visible; with a filter set from a
non-empty label, a task is visible exactly when one of its tags lowercases to
the lowercased label; and when the filtered result is empty while the
collection is not, the projector renders the filter-specific empty state,
which is distinct from the no-filter empty state. -/
theorem C4_filter_semantics :
    (∀ tasks : List Task, visibleTasks none tasks = tasks) ∧
    (∀ (label : String) (tasks : List Task) (t : Task), label ≠ "" →
      (t ∈ visibleTasks (setActiveTagFilter (some label)).1 tasks ↔
        t ∈ tasks ∧ ∃ tag ∈ t.tags, jsToLower tag = jsToLower label)) ∧
    (∀ (tasks : List Task) (mode : SortMode) (label : String),
      label ≠ "" → tasks ≠ [] →
      visibleTasks (setActiveTagFilter (some label)).1 tasks = [] →
      (renderTasks ⟨tasks, mode, (setActiveTagFilter (some label)).1,
          (setActiveTagFilter (some label)).2⟩).2.view =
        ListView.emptyWithFilter label ∧
      ∀ lbl, ListView.emptyWithFilter lbl ≠ ListView.emptyNoFilter) := by
  refine ⟨fun ts => rfl, ?_, ?_⟩
  · intro label ts t hl
    have hfst : (setActiveTagFilter (some label)).1 = some (jsToLower label) := by
      simp [setActiveTagFilter, hl]
    rw [hfst]
    simp only [visibleTasks, List.mem_filter, List.any_eq_true, beq_iff_eq]
  · intro ts mode label hl hne hempty
    have hfst : (setActiveTagFilter (some label)).1 = some (jsToLower label) := by
      simp [setActiveTagFilter, hl]
    have hsnd : (setActiveTagFilter (some label)).2 = label := by
      simp [setActiveTagFilter, hl]
    rw [hfst] at hempty
    constructor
    · simp only [renderTasks, hfst, hsnd, hempty]
      simp [optTruthy, jsToLower_ne_empty label hl, hl]
    · intro lbl
      simp

/-- C4 witness: the filter label "Home" matches a task tagged "home", and a
filter with zero matches over a non-empty collection renders the
filter-specific empty state. -/
theorem C4_filter_witness :
    exHome ∈ visibleTasks (setActiveTagFilter (some "Home")).1 [exHome] ∧
    (renderTasks ⟨[exHome], SortMode.createdAt, (setActiveTagFilter (some "Work")).1,
        (setActiveTagFilter (some "Work")).2⟩).2.view =
      ListView.emptyWithFilter "Work" := by
  constructor
  · exact (C4_filter_semantics.2.1 "Home" [exHome] exHome (by decide)).mpr
      ⟨by decide, "home", by decide, by decide⟩
  · exact (C4_filter_semantics.2.2 [exHome] SortMode.createdAt "Work"
      (by decide) (by decide) (by decide)).1

end Todo
